import Mathlib

/-!
Verification of the Game State & Command Resolution Engine of the voice-chess
program (`src/main.py`).

The program's session logic (`make_move`, `undo_move`, `redo_move`, `play_best`,
`parse_command`, `save_pgn`) lives in `src/main.py` and is embedded below as pure
functions over an explicit `Session` state (the Python code mutates module-level
globals `board`, `move_history`, `redo_stack`, and the transcript file).

The Board Model and Notation Codec are provided by the `python-chess` dependency
(`chess.Board`, `board.parse_san`, `board.san`, `chess.Move.from_uci`), which is
not part of this repository's sources; those components are modelled from the
spec (each such definition carries a `Modelled from the spec:` doc comment).

Conventions:
* squares are numbered `rank * 8 + file` with `a1 = 0`, `h8 = 63` (as in the
  library the program uses);
* `true` is White (the library's `chess.WHITE = True`);
* Python appends to the end of its lists; the Lean lists below keep the most
  recent element at the *head*, so a Python `append`/`pop()` pair becomes
  `cons`/`tail` here.
-/

namespace VoiceChess

/-- Modelled from the spec: piece kinds of the Board Model (spec section 3). -/
inductive PieceType where
  | pawn | knight | bishop | rook | queen | king
deriving DecidableEq, Repr

/-- Modelled from the spec: a (piece-kind, side) pair occupying a square;
`white = true` means the White side. -/
structure Piece where
  ptype : PieceType
  white : Bool
deriving DecidableEq, Repr

/-- Modelled from the spec: the castling-rights set, "4 independent booleans"
(spec section 3). -/
structure CastlingRights where
  wk : Bool
  wq : Bool
  bk : Bool
  bq : Bool
deriving DecidableEq, Repr

/-- Modelled from the spec: the Board data of the Board Model (spec section 3):
an 8x8 grid of optional pieces (a list of 64 entries, index `rank * 8 + file`),
side to move, castling rights, en-passant target square, half-move clock and
full-move number. -/
structure Position where
  squares : List (Option Piece)
  turn : Bool
  castling : CastlingRights
  epSquare : Option Nat
  halfmove : Nat
  fullmove : Nat
deriving DecidableEq, Repr

/-- Modelled from the spec: a Move is an origin square, a destination square and
an optional promotion piece kind (spec section 3).  Special moves (castling,
en-passant capture, double push) are recognized from the position, as the
program's chess library does. -/
structure Move where
  fromSq : Nat
  toSq : Nat
  promo : Option PieceType
deriving DecidableEq, Repr

/-- The null move (the library's `chess.Move.null()`, origin = destination = a1,
no promotion); it is falsy in Python's `if move and ...` test. -/
def nullMove : Move := ⟨0, 0, none⟩

/-- Python's truthiness test on a move (`bool(move)` is false exactly for the
null move: zero origin, zero destination, no promotion). -/
def moveBool (m : Move) : Bool :=
  !(m.fromSq == 0 && m.toSq == 0 && m.promo == none)

def fileOf (sq : Nat) : Nat := sq % 8

def rankOf (sq : Nat) : Nat := sq / 8

def mkSq (f r : Nat) : Nat := r * 8 + f

/-- Is the (file, rank) pair with integer coordinates on the board? -/
def onBoard (f r : Int) : Bool := 0 ≤ f && f < 8 && 0 ≤ r && r < 8

/-- Square from integer coordinates (meaningful only when `onBoard f r`). -/
def sqOf (f r : Int) : Nat := r.toNat * 8 + f.toNat

/-- Piece on a square of a position (out-of-range squares read as empty). -/
def pieceAt (pos : Position) (sq : Nat) : Option Piece :=
  pos.squares.getD sq none

/-- Modelled from the spec: the standard initial position the session starts from
(spec section 3, "standard initial position"). -/
def initialPosition : Position where
  squares :=
    ([some ⟨.rook, true⟩, some ⟨.knight, true⟩, some ⟨.bishop, true⟩, some ⟨.queen, true⟩,
      some ⟨.king, true⟩, some ⟨.bishop, true⟩, some ⟨.knight, true⟩, some ⟨.rook, true⟩]
      ++ List.replicate 8 (some ⟨.pawn, true⟩)
      ++ List.replicate 32 none
      ++ List.replicate 8 (some ⟨.pawn, false⟩)
      ++ [some ⟨.rook, false⟩, some ⟨.knight, false⟩, some ⟨.bishop, false⟩, some ⟨.queen, false⟩,
          some ⟨.king, false⟩, some ⟨.bishop, false⟩, some ⟨.knight, false⟩, some ⟨.rook, false⟩])
  turn := true
  castling := ⟨true, true, true, true⟩
  epSquare := none
  halfmove := 0
  fullmove := 1

/-- Modelled from the spec: `apply(move)` of the Board Model (spec section 4.1):
"mutates Board state (placement, rights, clocks, side to move)".  This is a total
function, as the library's `board.push` is: it moves whatever piece stands on the
origin square, handling promotion, en-passant capture, the rook displacement of a
castling king move, rights/clock updates and the en-passant target of a double
pawn push.  (With an empty origin square the library would fail an assertion;
that case is unreachable for the moves this program pushes, and we just flip the
side to move.) -/
def applyMove (pos : Position) (m : Move) : Position :=
  match pieceAt pos m.fromSq with
  | none =>
      { pos with
          turn := !pos.turn
          epSquare := none
          halfmove := pos.halfmove + 1
          fullmove := if pos.turn then pos.fullmove else pos.fullmove + 1 }
  | some pc =>
      let ff := fileOf m.fromSq
      let fr := rankOf m.fromSq
      let tf := fileOf m.toSq
      let tr := rankOf m.toSq
      let isEp := pc.ptype == .pawn && pos.epSquare == some m.toSq && ff != tf
        && pieceAt pos m.toSq == none
      let capSq := if isEp then mkSq tf fr else m.toSq
      let captured := pieceAt pos capSq
      let b1 := pos.squares.set m.fromSq none
      let b2 := if isEp then b1.set capSq none else b1
      let placed : Piece := match m.promo with
        | some pt => ⟨pt, pc.white⟩
        | none => pc
      let b3 := b2.set m.toSq (some placed)
      let isCastle := pc.ptype == .king && ((tf : Int) - (ff : Int)).natAbs == 2
      let b4 :=
        if isCastle then
          if tf == 6 then (b3.set (mkSq 7 fr) none).set (mkSq 5 fr) (some ⟨.rook, pc.white⟩)
          else (b3.set (mkSq 0 fr) none).set (mkSq 3 fr) (some ⟨.rook, pc.white⟩)
        else b3
      let kingMoved := pc.ptype == .king
      let touches (sq : Nat) : Bool := m.fromSq == sq || m.toSq == sq
      { squares := b4
        turn := !pos.turn
        castling :=
          { wk := pos.castling.wk && !(touches 7) && !(kingMoved && pc.white)
            wq := pos.castling.wq && !(touches 0) && !(kingMoved && pc.white)
            bk := pos.castling.bk && !(touches 63) && !(kingMoved && !pc.white)
            bq := pos.castling.bq && !(touches 56) && !(kingMoved && !pc.white) }
        epSquare :=
          if pc.ptype == .pawn && ((tr : Int) - (fr : Int)).natAbs == 2 then
            some (mkSq ff ((fr + tr) / 2))
          else none
        halfmove := if pc.ptype == .pawn || captured.isSome then 0 else pos.halfmove + 1
        fullmove := if pos.turn then pos.fullmove else pos.fullmove + 1 }

/-- Walk from (f, r) in direction (df, dr) and return the first piece met
within `fuel` steps (used for slider attacks). -/
def rayFirst (pos : Position) (f r df dr : Int) : Nat → Option Piece
  | 0 => none
  | fuel + 1 =>
      let f' := f + df
      let r' := r + dr
      if onBoard f' r' then
        match pieceAt pos (sqOf f' r') with
        | some p => some p
        | none => rayFirst pos f' r' df dr fuel
      else none

def knightOffsets : List (Int × Int) :=
  [(1, 2), (2, 1), (2, -1), (1, -2), (-1, -2), (-2, -1), (-2, 1), (-1, 2)]

def kingOffsets : List (Int × Int) :=
  [(1, 0), (1, 1), (0, 1), (-1, 1), (-1, 0), (-1, -1), (0, -1), (1, -1)]

def rookDirs : List (Int × Int) := [(1, 0), (-1, 0), (0, 1), (0, -1)]

def bishopDirs : List (Int × Int) := [(1, 1), (1, -1), (-1, 1), (-1, -1)]

/-- Is `target` attacked in `pos` by a piece of side `att`?  (Checks pawn,
knight and king contact attacks and slider attacks along rays.) -/
def attackedBy (pos : Position) (att : Bool) (target : Nat) : Bool :=
  let tf : Int := fileOf target
  let tr : Int := rankOf target
  let hasAt (f r : Int) (pt : PieceType) : Bool :=
    onBoard f r && pieceAt pos (sqOf f r) == some ⟨pt, att⟩
  let pawnDir : Int := if att then 1 else -1
  let pawnHit := hasAt (tf - 1) (tr - pawnDir) .pawn || hasAt (tf + 1) (tr - pawnDir) .pawn
  let knightHit := knightOffsets.any fun d => hasAt (tf + d.1) (tr + d.2) .knight
  let kingHit := kingOffsets.any fun d => hasAt (tf + d.1) (tr + d.2) .king
  let rookHit := rookDirs.any fun d =>
    match rayFirst pos tf tr d.1 d.2 7 with
    | some p => p.white == att && (p.ptype == .rook || p.ptype == .queen)
    | none => false
  let bishopHit := bishopDirs.any fun d =>
    match rayFirst pos tf tr d.1 d.2 7 with
    | some p => p.white == att && (p.ptype == .bishop || p.ptype == .queen)
    | none => false
  pawnHit || knightHit || kingHit || rookHit || bishopHit

/-- Square of the king of side `side`, if present. -/
def kingSquare (pos : Position) (side : Bool) : Option Nat :=
  pos.squares.findIdx? (fun o => o == some ⟨.king, side⟩)

/-- Modelled from the spec: `is_check()` (spec section 4.1): the side to move is
in check. -/
def inCheck (pos : Position) : Bool :=
  match kingSquare pos pos.turn with
  | some k => attackedBy pos (!pos.turn) k
  | none => false

/-- Does playing `m` leave the mover's own king attacked (such moves are
excluded from the legal set, spec section 4.1)? -/
def leavesKingInCheck (pos : Position) (m : Move) : Bool :=
  let pos' := applyMove pos m
  match kingSquare pos' pos.turn with
  | some k => attackedBy pos' (!pos.turn) k
  | none => false

/-- Pawn moves from `sq` (pushes, double pushes, captures, en-passant captures,
promotions), before the own-king-safety filter. -/
def pawnMoves (pos : Position) (sq : Nat) (white : Bool) : List Move :=
  let f : Int := fileOf sq
  let r : Int := rankOf sq
  let dir : Int := if white then 1 else -1
  let startRank : Int := if white then 1 else 6
  let lastRank : Int := if white then 7 else 0
  let emptyAt (ff rr : Int) : Bool := onBoard ff rr && pieceAt pos (sqOf ff rr) == none
  let enemyAt (ff rr : Int) : Bool :=
    onBoard ff rr && match pieceAt pos (sqOf ff rr) with
      | some p => p.white != white
      | none => false
  let addTargets (toF toR : Int) : List Move :=
    if toR == lastRank then
      [⟨sq, sqOf toF toR, some .queen⟩, ⟨sq, sqOf toF toR, some .rook⟩,
       ⟨sq, sqOf toF toR, some .bishop⟩, ⟨sq, sqOf toF toR, some .knight⟩]
    else [⟨sq, sqOf toF toR, none⟩]
  let push := if emptyAt f (r + dir) then addTargets f (r + dir) else []
  let dbl :=
    if r == startRank && emptyAt f (r + dir) && emptyAt f (r + 2 * dir) then
      [(⟨sq, sqOf f (r + 2 * dir), none⟩ : Move)]
    else []
  let cap (df : Int) : List Move :=
    if enemyAt (f + df) (r + dir)
        || (onBoard (f + df) (r + dir) && pos.epSquare == some (sqOf (f + df) (r + dir))) then
      addTargets (f + df) (r + dir)
    else []
  push ++ dbl ++ cap (-1) ++ cap 1

/-- Step moves (knight/king) and slider moves from `sq`, before the
own-king-safety filter. -/
def stepMoves (pos : Position) (sq : Nat) (white : Bool) (offs : List (Int × Int)) : List Move :=
  let f : Int := fileOf sq
  let r : Int := rankOf sq
  offs.filterMap fun d =>
    let f' := f + d.1
    let r' := r + d.2
    if onBoard f' r' then
      match pieceAt pos (sqOf f' r') with
      | some p => if p.white == white then none else some ⟨sq, sqOf f' r', none⟩
      | none => some ⟨sq, sqOf f' r', none⟩
    else none

def slideRay (pos : Position) (sq : Nat) (white : Bool) (f r df dr : Int) : Nat → List Move
  | 0 => []
  | fuel + 1 =>
      let f' := f + df
      let r' := r + dr
      if onBoard f' r' then
        match pieceAt pos (sqOf f' r') with
        | some p => if p.white == white then [] else [⟨sq, sqOf f' r', none⟩]
        | none => ⟨sq, sqOf f' r', none⟩ :: slideRay pos sq white f' r' df dr fuel
      else []

def sliderMoves (pos : Position) (sq : Nat) (white : Bool) (dirs : List (Int × Int)) : List Move :=
  let f : Int := fileOf sq
  let r : Int := rankOf sq
  dirs.flatMap fun d => slideRay pos sq white f r d.1 d.2 7

/-- Moves of the piece standing on `sq` (empty or enemy squares give none),
before the own-king-safety filter and without castling. -/
def pieceMoves (pos : Position) (sq : Nat) : List Move :=
  match pieceAt pos sq with
  | none => []
  | some p =>
      if p.white != pos.turn then []
      else match p.ptype with
        | .pawn => pawnMoves pos sq p.white
        | .knight => stepMoves pos sq p.white knightOffsets
        | .king => stepMoves pos sq p.white kingOffsets
        | .rook => sliderMoves pos sq p.white rookDirs
        | .bishop => sliderMoves pos sq p.white bishopDirs
        | .queen => sliderMoves pos sq p.white (rookDirs ++ bishopDirs)

/-- Castling moves of the side to move: rights intact, rook in its corner, the
squares between king and rook empty, and the king's path (including its start
and destination) not attacked. -/
def castleMoves (pos : Position) : List Move :=
  let white := pos.turn
  let r : Nat := if white then 0 else 7
  let enemy := !white
  let emptyAt (f : Nat) : Bool := pieceAt pos (mkSq f r) == none
  let safeAt (f : Nat) : Bool := !attackedBy pos enemy (mkSq f r)
  let kingHome := pieceAt pos (mkSq 4 r) == some ⟨.king, white⟩
  let rookAt (f : Nat) : Bool := pieceAt pos (mkSq f r) == some ⟨.rook, white⟩
  let kRight := if white then pos.castling.wk else pos.castling.bk
  let qRight := if white then pos.castling.wq else pos.castling.bq
  let kside :=
    if kRight && kingHome && rookAt 7 && emptyAt 5 && emptyAt 6
        && safeAt 4 && safeAt 5 && safeAt 6 then
      [(⟨mkSq 4 r, mkSq 6 r, none⟩ : Move)]
    else []
  let qside :=
    if qRight && kingHome && rookAt 0 && emptyAt 1 && emptyAt 2 && emptyAt 3
        && safeAt 4 && safeAt 3 && safeAt 2 then
      [(⟨mkSq 4 r, mkSq 2 r, none⟩ : Move)]
    else []
  kside ++ qside

/-- Modelled from the spec: `legal_moves()` of the Board Model (spec section
4.1): "all moves legal in the current position for the side to move, accounting
for check (a move that leaves one's own king in check is excluded)". -/
def legalMoves (pos : Position) : List Move :=
  ((List.range 64).flatMap fun sq => pieceMoves pos sq).filter
    (fun m => !leavesKingInCheck pos m)
  ++ castleMoves pos

/-- Modelled from the spec: `is_checkmate()` (spec section 4.1), derived from
check status plus emptiness of the legal-move set. -/
def isCheckmate (pos : Position) : Bool :=
  inCheck pos && (legalMoves pos).isEmpty

/-- Modelled from the spec: `is_stalemate()` (spec section 4.1). -/
def isStalemate (pos : Position) : Bool :=
  !inCheck pos && (legalMoves pos).isEmpty

def fileChar (f : Nat) : Char := Char.ofNat ('a'.toNat + f)

def rankChar (r : Nat) : Char := Char.ofNat ('1'.toNat + r)

def pieceChar : PieceType → Char
  | .pawn => 'P'
  | .knight => 'N'
  | .bishop => 'B'
  | .rook => 'R'
  | .queen => 'Q'
  | .king => 'K'

/-- Is `m` a capture in `pos` (destination occupied, or an en-passant pawn
capture)? -/
def isCaptureMv (pos : Position) (m : Move) : Bool :=
  (pieceAt pos m.toSq).isSome
  || (match pieceAt pos m.fromSq with
      | some p => p.ptype == .pawn && pos.epSquare == some m.toSq
          && fileOf m.fromSq != fileOf m.toSq
      | none => false)

/-- Check/checkmate suffix of a SAN string, computed against the position after
the move ("#" on mate, "+" on check, nothing otherwise). -/
def sanSuffixChars (posAfter : Position) : List Char :=
  if inCheck posAfter then
    if (legalMoves posAfter).isEmpty then ['#'] else ['+']
  else []

/-- Disambiguator of a non-pawn SAN body: among the other legal moves of a
same-kind piece to the same destination, add the origin file when another such
piece shares the origin's rank (or shares neither line), and the origin rank
when another shares the origin's file — the standard rule (spec section 4.2,
"disambiguating by file/rank/both"). -/
def disambigChars (pos : Position) (m : Move) (pt : PieceType) : List Char :=
  let others :=
    ((legalMoves pos).filter fun c =>
      c.toSq == m.toSq && c.fromSq != m.fromSq
        && (match pieceAt pos c.fromSq with
            | some q => q.ptype == pt
            | none => false)).map (·.fromSq)
  if others.isEmpty then []
  else
    let sameRank := others.any fun o => rankOf o == rankOf m.fromSq
    let sameFile := others.any fun o => fileOf o == fileOf m.fromSq
    let col := sameRank || !sameFile
    (if col then [fileChar (fileOf m.fromSq)] else [])
      ++ (if sameFile then [rankChar (rankOf m.fromSq)] else [])

/-- Modelled from the spec: the character list of `to_notation(move,
board_before)` of the Notation Codec (spec section 4.2): standard algebraic
notation with disambiguation, capture marker, promotion and check/mate suffix;
castling renders as `O-O`/`O-O-O`; the null move renders as the library's
`--`.  (The library asserts the origin square is occupied; for an empty origin —
unreachable for rendered legal moves — we also return `--`.) -/
def sanChars (pos : Position) (m : Move) : List Char :=
  if moveBool m = false then ['-', '-']
  else
    match pieceAt pos m.fromSq with
    | none => ['-', '-']
    | some pc =>
        let body :=
          if pc.ptype == .king && ((fileOf m.toSq : Int) - (fileOf m.fromSq : Int)).natAbs == 2 then
            if fileOf m.toSq == 6 then ['O', '-', 'O'] else ['O', '-', 'O', '-', 'O']
          else if pc.ptype == .pawn then
            (if isCaptureMv pos m then [fileChar (fileOf m.fromSq), 'x'] else [])
              ++ [fileChar (fileOf m.toSq), rankChar (rankOf m.toSq)]
              ++ (match m.promo with
                  | some pt => ['=', pieceChar pt]
                  | none => [])
          else
            pieceChar pc.ptype :: disambigChars pos m pc.ptype
              ++ (if isCaptureMv pos m then ['x'] else [])
              ++ [fileChar (fileOf m.toSq), rankChar (rankOf m.toSq)]
        body ++ sanSuffixChars (applyMove pos m)

/-- `board.san(move)`: the standard-algebraic rendering of a move in the
position in which it is played. -/
def sanStr (pos : Position) (m : Move) : String :=
  String.mk (sanChars pos m)

/-- Modelled from the spec: `board.parse_san` — the algebraic half of the
Notation Codec's `parse(token, board)` (spec section 4.2): the token "must
resolve to exactly one legal move given current board context", failing on zero
matches (`UnknownNotation`) or several (`AmbiguousMove`); the library raises in
those cases and `make_move` swallows the exception, which this `Option` models.
A token matches a legal move when it is that move's standard algebraic
rendering. -/
def sanParse (pos : Position) (t : String) : Option Move :=
  match (legalMoves pos).filter (fun m => sanStr pos m == t) with
  | [m] => some m
  | _ => none

def isFileChar (c : Char) : Bool := 'a' ≤ c && c ≤ 'h'

def isRankChar (c : Char) : Bool := '1' ≤ c && c ≤ '8'

def sqOfChars (fc rc : Char) : Nat := mkSq (fc.toNat - 'a'.toNat) (rc.toNat - '1'.toNat)

/-- `chess.Move.from_uci` on a character list: `0000` is the null move, and a
4-character token must be origin file/rank then destination file/rank (lowercase,
origin distinct from destination — the library raises `InvalidMoveError`
otherwise, which `none` models).  `make_move` only calls this on tokens of
length exactly 4, so longer (promotion/drop) forms are out of reach and read as
failures here. -/
def fromUciChars : List Char → Option Move
  | [a, b, c, d] =>
      if a == '0' && b == '0' && c == '0' && d == '0' then some nullMove
      else if isFileChar a && isRankChar b && isFileChar c && isRankChar d then
        if sqOfChars a b == sqOfChars c d then none
        else some ⟨sqOfChars a b, sqOfChars c d, none⟩
      else none
  | _ => none

/-- `chess.Move.from_uci` on a string. -/
def fromUci (t : String) : Option Move :=
  fromUciChars t.data

/-- Modelled from the spec: the library's `chess.Board` — the current position
together with the applied-move stack, where each entry keeps the state needed to
reverse it (spec section 3, `HistoryEntry`: "an applied Move plus the minimal
state needed to reverse it").  The head of `stack` is the most recent entry, and
each entry stores the move with the position *before* it was played, so
`board.pop()` can restore the exact prior state (spec section 4.1,
`reverse(entry)`). -/
structure Board where
  pos : Position
  stack : List (Move × Position)
deriving DecidableEq, Repr

/-- `board.push(move)`: apply the move and record the reversal entry. -/
def pushBoard (b : Board) (m : Move) : Board :=
  ⟨applyMove b.pos m, (m, b.pos) :: b.stack⟩

/-- The applied-move sequence in the order it was played (the library's
`board.move_stack`, oldest first). -/
def appliedSeq (b : Board) : List Move :=
  (b.stack.map Prod.fst).reverse

/-- The whole mutable state of `src/main.py`'s game logic: the global `board`
(line 17), `move_history` (line 28), `redo_stack` (line 29) — most recent entry
at the head of each Lean list — and the transcript last written by `save_pgn`
(lines 197-203), `none` before the first write. -/
structure Session where
  board : Board
  move_history : List String
  redo_stack : List Move
  saved : Option (List Move)
deriving DecidableEq, Repr

/-- The session state at program start: initial position, empty history and redo
stack, no transcript written. -/
def initialSession : Session :=
  ⟨⟨initialPosition, []⟩, [], [], none⟩

/-- Outcome of `make_move` (src/main.py lines 156-178): `applied` for the
success branch (lines 168-173); `rejected` for both the `print("Illegal move")`
branch (line 175) and the `print("Move error")` exception handler (line 178) —
in both the session state is untouched. -/
inductive MoveOutcome where
  | applied
  | rejected
deriving DecidableEq, Repr

/-- Result of `parse_command` (src/main.py lines 144-152): `ret c` models the
Python function returning `c` (`ret none` is Python's `None`), `exn` models an
uncaught exception escaping the function. -/
inductive PCResult where
  | ret (c : Option String)
  | exn
deriving DecidableEq, Repr

/-- `parse_command(cmd)` (src/main.py lines 144-152).  `cmd.replace(" ", "")`
removes every space; if the result is a control word it is returned, a
two-character token is returned unmodified, and otherwise the first character is
uppercased (`cmd[0].upper() + cmd[1:]`).  When the input is non-empty but
consists of spaces only, the space removal leaves the empty string, the earlier
`if not cmd` guard has already been passed, and `cmd[0]` raises an uncaught
`IndexError` — the `exn` case. -/
def parse_command (cmd : String) : PCResult :=
  if cmd = "" then .ret none
  else
    let c := String.mk (cmd.data.filter fun ch => ch ≠ ' ')
    if c = "undo" ∨ c = "redo" ∨ c = "playbestmove" then .ret (some c)
    else if c.length = 2 then .ret (some c)
    else
      match c.data with
      | [] => .exn
      | ch :: rest => .ret (some (String.mk (ch.toUpper :: rest)))

/-- The move-resolution step of `make_move` (src/main.py lines 158-166): try
`board.parse_san` (its exceptions are swallowed, line 160-163); if that left no
move and the token has length exactly 4, try `chess.Move.from_uci` (line
165-166).  A `from_uci` exception propagates to the outer handler; as it leaves
the state untouched either way, it is conflated with `none` here. -/
def resolveMove (pos : Position) (t : String) : Option Move :=
  match sanParse pos t with
  | some m => some m
  | none => if t.length = 4 then fromUci t else none

/-- The success branch of `make_move` (src/main.py lines 169-173): render the
SAN in the position in which the move is played, push the move, append the SAN
to the history, clear the redo stack, and `save_pgn()` — which serializes the
full applied-move sequence (`board.move_stack`) to the transcript file. -/
def commitMove (s : Session) (m : Move) : Session :=
  let san := sanStr s.board.pos m
  let b' := pushBoard s.board m
  { board := b'
    move_history := san :: s.move_history
    redo_stack := []
    saved := some (appliedSeq b') }

/-- `make_move(move_str)` (src/main.py lines 156-178): resolve the token, and if
a (non-null: `if move and ...`) move resolved and is in the legal-move set,
commit it; otherwise print and leave every piece of state unchanged. -/
def make_move (s : Session) (t : String) : Session × MoveOutcome :=
  match resolveMove s.board.pos t with
  | some m =>
      if moveBool m && decide (m ∈ legalMoves s.board.pos) then
        (commitMove s m, .applied)
      else (s, .rejected)
  | none => (s, .rejected)

/-- `undo_move()` (src/main.py lines 180-183): if the board's move stack is
non-empty, `board.pop()` restores the pre-move position and the popped move is
appended to `redo_stack`, and the last history entry is dropped (`.tail` stands
for Python's `move_history.pop()`, which cannot underflow here because history
and stack stay in step).  The Python function has no `return` statement, so it
returns `None` — reflected as the `Option Bool` component being `none`. -/
def undo_move (s : Session) : Session × Option Bool :=
  match s.board.stack with
  | [] => (s, none)
  | (m, p) :: rest =>
      ({ board := ⟨p, rest⟩
         move_history := s.move_history.tail
         redo_stack := m :: s.redo_stack
         saved := s.saved }, none)

/-- The state after `undo_move()` (its returned value discarded, as in the main
loop). -/
def undoOp (s : Session) : Session :=
  (undo_move s).1

/-- `redo_move()` (src/main.py lines 185-190): if `redo_stack` is non-empty, pop
the most recent undone move, render its SAN in the current position, push it and
append the SAN to the history.  No legality check is made and `save_pgn` is not
called. -/
def redo_move (s : Session) : Session :=
  match s.redo_stack with
  | [] => s
  | m :: rest =>
      let san := sanStr s.board.pos m
      { board := pushBoard s.board m
        move_history := san :: s.move_history
        redo_stack := rest
        saved := s.saved }

/-- `play_best()` (src/main.py lines 192-195): when an engine is available, ask
it for a move (the engine is an external process, so its `suggestion` is a
parameter here) and feed `board.san(result.move)` to `make_move` — the same
apply path as a manual move.  Without an engine, nothing happens. -/
def play_best (engineOn : Bool) (s : Session) (suggestion : Move) : Session :=
  if engineOn then (make_move s (sanStr s.board.pos suggestion)).1 else s

/-- `draw_status()` (src/main.py lines 114-129): a pure rendering of the current
state — the check/mate/stalemate banner and, when the engine analysis produced a
principal-variation move, a "Best Move" line via `board.san`.  Neither the
library's `analyse` nor `san` mutates the session, so the status display is a
function of the state. -/
def draw_status (s : Session) (analysis : Option Move) : List String :=
  (if isCheckmate s.board.pos then ["CHECKMATE!"]
   else if inCheck s.board.pos then ["CHECK!"]
   else if isStalemate s.board.pos then ["STALEMATE"]
   else [])
  ++ (match analysis with
      | some m => ["Best Move: " ++ sanStr s.board.pos m]
      | none => [])

/-- Is the character an ASCII letter or digit (the claim's "letter/digit
characters")? -/
def isAlnumCh (c : Char) : Bool :=
  ('A' ≤ c && c ≤ 'Z') || ('a' ≤ c && c ≤ 'z') || ('0' ≤ c && c ≤ '9')

/-- Spec-worded resolver for the coordinate-precedence claim: "when the input
token is exactly 4 letter/digit characters, interpret it as coordinate
(origin+destination) form in preference to algebraic form; for any other token,
algebraic notation only." -/
def resolveMoveCoordinateFirst (pos : Position) (t : String) : Option Move :=
  if t.length = 4 ∧ t.data.all isAlnumCh = true then
    match fromUci t with
    | some m => some m
    | none => sanParse pos t
  else sanParse pos t

/-- Iterate a session operation `n` times. -/
def iterOp (f : Session → Session) : Nat → Session → Session
  | 0, s => s
  | n + 1, s => iterOp f n (f s)

/-- The notation history matches the board's move stack: same length, and the
i-th notation entry is the standard algebraic rendering of the i-th stacked move
in the position in which it was played (the snapshot stored with it). -/
abbrev HistOk (s : Session) : Prop :=
  s.move_history = s.board.stack.map fun e => sanStr e.2 e.1

/-- The stack is a coherent reversal record: each entry's snapshot yields the
next (more recent) position by applying its move. -/
def StackCoh : Position → List (Move × Position) → Prop
  | _, [] => True
  | pos, (m, p) :: rest => pos = applyMove p m ∧ StackCoh p rest

/-- Coherent stack together with a matching notation history. -/
def SessionCoh (s : Session) : Prop :=
  HistOk s ∧ StackCoh s.board.pos s.board.stack

/-- The moves are a legal line from the given position: each is legal where it
is played. -/
def LegalLine : Position → List Move → Prop
  | _, [] => True
  | pos, m :: ms => m ∈ legalMoves pos ∧ LegalLine (applyMove pos m) ms

/-- Stack coherence strengthened with legality: every stacked move was legal in
its snapshot position. -/
def LegalStackCoh : Position → List (Move × Position) → Prop
  | _, [] => True
  | pos, (m, p) :: rest => pos = applyMove p m ∧ m ∈ legalMoves p ∧ LegalStackCoh p rest

/-- Invariant of every reachable session state: a legality-coherent stack, and a
redo stack whose moves (head first) form a legal line continuing the current
position. -/
def ReachInv (s : Session) : Prop :=
  LegalStackCoh s.board.pos s.board.stack ∧ LegalLine s.board.pos s.redo_stack

/-- Is `ms` a sequence of moves each legal when it is committed, starting from
session `s`? -/
def LegalFrom (s : Session) : List Move → Bool
  | [] => true
  | m :: ms => decide (m ∈ legalMoves s.board.pos) && LegalFrom (commitMove s m) ms

/-- The session after committing the moves of `ms` in order from the initial
session — "a sequence of moves applied from the initial position" through the
program's apply path. -/
def playScript (ms : List Move) : Session :=
  ms.foldl commitMove initialSession

/-- The session states reachable through the program's operations from the
initial state (the main loop dispatches to exactly these, src/main.py lines
224-234). -/
inductive Reachable : Session → Prop where
  | init : Reachable initialSession
  | mv (s : Session) (t : String) : Reachable s → Reachable (make_move s t).1
  | und (s : Session) : Reachable s → Reachable (undoOp s)
  | red (s : Session) : Reachable s → Reachable (redo_move s)
  | best (s : Session) (eng : Bool) (sug : Move) : Reachable s → Reachable (play_best eng s sug)

/-! ## Helper lemmas -/

theorem make_move_rejected_eq (s : Session) (t : String)
    (h : (make_move s t).2 = .rejected) : (make_move s t).1 = s := by
  cases hr : resolveMove s.board.pos t with
  | none => simp [make_move, hr]
  | some m =>
      by_cases hc : (moveBool m && decide (m ∈ legalMoves s.board.pos)) = true
      · exfalso
        simp [make_move, hr, hc] at h
      · simp [make_move, hr, hc]

theorem make_move_applied_commit (s : Session) (t : String)
    (h : (make_move s t).2 = .applied) :
    ∃ m, moveBool m = true ∧ m ∈ legalMoves s.board.pos ∧
      make_move s t = (commitMove s m, .applied) := by
  cases hr : resolveMove s.board.pos t with
  | none => simp [make_move, hr] at h
  | some m =>
      by_cases hc : (moveBool m && decide (m ∈ legalMoves s.board.pos)) = true
      · have hc' := hc
        simp only [Bool.and_eq_true, decide_eq_true_eq] at hc'
        exact ⟨m, hc'.1, hc'.2, by simp [make_move, hr, hc]⟩
      · exfalso
        simp [make_move, hr, hc] at h

theorem make_move_cases (s : Session) (t : String) :
    (make_move s t).1 = s ∨
      ∃ m, moveBool m = true ∧ m ∈ legalMoves s.board.pos ∧
        (make_move s t).1 = commitMove s m := by
  cases ho : (make_move s t).2 with
  | applied =>
      obtain ⟨m, h1, h2, h3⟩ := make_move_applied_commit s t ho
      exact Or.inr ⟨m, h1, h2, by rw [h3]⟩
  | rejected => exact Or.inl (make_move_rejected_eq s t ho)

theorem redo_move_of_empty (s : Session) (h : s.redo_stack = []) : redo_move s = s := by
  unfold redo_move
  rw [h]

/-! ## Claim theorems -/

/-- C3: every rejected command string (unparseable notation, or a move outside
the current legal-move set — both `print` branches of `make_move`) leaves the
board, the applied history and the redo stack completely unchanged, so
submitting the same rejected input twice yields identical state both times. -/
theorem rejected_command_leaves_state (s : Session) (t : String)
    (h : (make_move s t).2 = .rejected) :
    (make_move s t).1 = s ∧ make_move ((make_move s t).1) t = make_move s t := by
  have h1 := make_move_rejected_eq s t h
  exact ⟨h1, by rw [h1]⟩

/-- Witness for C3 at a concrete input: `"zzzz"` is rejected in the initial
position and the state is untouched. -/
theorem rejected_command_leaves_state_witness :
    (make_move initialSession "zzzz").2 = .rejected ∧
      (make_move initialSession "zzzz").1 = initialSession :=
  ⟨by decide, (rejected_command_leaves_state initialSession "zzzz" (by decide)).1⟩

/-- C4: a successful commit (the `make_move` success branch) empties the redo
stack, and this commit path is the only operation that discards pending redo
entries: a rejected `make_move` leaves the redo stack unchanged, `undo_move`
only pushes onto it, and `redo_move` removes exactly the one entry it re-applies
(its result is the tail).  After a commit, `redo_move` is a no-op (until an
`undo_move` pushes a new entry). -/
theorem commit_clears_redo (s : Session) (t : String) :
    ((make_move s t).2 = .applied → (make_move s t).1.redo_stack = []) ∧
    ((make_move s t).2 = .rejected → (make_move s t).1.redo_stack = s.redo_stack) ∧
    ((undoOp s).redo_stack = s.redo_stack ∨
      ∃ m, (undoOp s).redo_stack = m :: s.redo_stack) ∧
    ((redo_move s).redo_stack = s.redo_stack.tail) ∧
    ((make_move s t).2 = .applied → redo_move (make_move s t).1 = (make_move s t).1) := by
  refine ⟨?_, ?_, ?_, ?_, ?_⟩
  · intro h
    obtain ⟨m, _, _, h3⟩ := make_move_applied_commit s t h
    rw [show (make_move s t).1 = commitMove s m by rw [h3]]
    rfl
  · intro h
    rw [make_move_rejected_eq s t h]
  · cases hs : s.board.stack with
    | nil => exact Or.inl (by simp [undoOp, undo_move, hs])
    | cons e rest => exact Or.inr ⟨e.1, by simp [undoOp, undo_move, hs]⟩
  · cases hr : s.redo_stack with
    | nil => simp [redo_move, hr]
    | cons m rest => simp [redo_move, hr]
  · intro h
    obtain ⟨m, _, _, h3⟩ := make_move_applied_commit s t h
    have : (make_move s t).1.redo_stack = [] := by
      rw [show (make_move s t).1 = commitMove s m by rw [h3]]
      rfl
    exact redo_move_of_empty _ this

/-- Witness for C4 at a concrete input: committing `e4` from the initial state
succeeds and leaves an empty redo stack. -/
theorem commit_clears_redo_witness :
    (make_move initialSession "e4").2 = .applied ∧
      (make_move initialSession "e4").1.redo_stack = [] :=
  ⟨by decide, (commit_clears_redo initialSession "e4").1 (by decide)⟩

/-- C5 (the code is wrong here): on an input consisting only of whitespace, the
space removal leaves the empty string and `cmd[0]` raises an uncaught
`IndexError` instead of returning a command or the distinct failure value
`None`. -/
theorem parse_command_whitespace_raises : parse_command " " = PCResult.exn := by decide

/-- C7: querying the advisor mutates nothing except through the same apply path
as a manual move: `play_best` either leaves the session unchanged, or commits —
through `make_move`'s commit branch — a move that is in the current legal-move
set.  In particular an illegal suggestion is never applied (anything applied is
legal), and the display analysis (`draw_status`) is a pure function of the
state. -/
theorem play_best_only_legal_commit (eng : Bool) (s : Session) (sug : Move) :
    play_best eng s sug = s ∨
      ∃ m, m ∈ legalMoves s.board.pos ∧ play_best eng s sug = commitMove s m := by
  cases eng with
  | false => exact Or.inl (by simp [play_best])
  | true =>
      rcases make_move_cases s (sanStr s.board.pos sug) with h | ⟨m, _, hm, hc⟩
      · exact Or.inl (by simpa [play_best] using h)
      · exact Or.inr ⟨m, hm, by simpa [play_best] using hc⟩

/-- C9 (amended): `undo_move` is a no-op on an empty history (not an error),
and otherwise pops the last entry, restores the exact prior board state, pushes
the popped move onto the redo stack and drops the last notation entry; but the
Python function has no return statement, so it returns `None` rather than the
boolean the claim describes. -/
theorem undo_move_behavior (s : Session) :
    (undo_move s).2 = none ∧
    (s.board.stack = [] → (undo_move s).1 = s) ∧
    (∀ m p rest, s.board.stack = (m, p) :: rest →
      (undo_move s).1.board = ⟨p, rest⟩ ∧
      (undo_move s).1.move_history = s.move_history.tail ∧
      (undo_move s).1.redo_stack = m :: s.redo_stack ∧
      (undo_move s).1.saved = s.saved) := by
  refine ⟨?_, ?_, ?_⟩
  · cases hs : s.board.stack with
    | nil => simp [undo_move, hs]
    | cons e rest =>
        obtain ⟨m, p⟩ := e
        simp [undo_move, hs]
  · intro h
    simp [undo_move, h]
  · intro m p rest h
    simp [undo_move, h]

/-- Witness for C9's amended theorem at a concrete input: the initial session
has an empty history and `undo_move` leaves it unchanged. -/
theorem undo_move_behavior_witness :
    initialSession.board.stack = [] ∧ (undo_move initialSession).1 = initialSession :=
  ⟨rfl, (undo_move_behavior initialSession).2.1 rfl⟩

/-- Counterexample for C9 as stated: with empty history the claim says `undo`
returns `false`; the code returns `None` (no boolean at all). -/
theorem undo_returns_no_boolean_cex :
    (undo_move initialSession).2 = none ∧ (undo_move initialSession).2 ≠ some false := by
  exact ⟨rfl, by decide⟩

/-- C10: each of the three operations preserves the invariant that the notation
history list and the board's move stack have equal length, the i-th notation
entry being the standard algebraic rendering of the i-th stacked move in the
position in which it was played (`HistOk` states this as equality with the
rendering of the stored snapshots, which implies the length equation). -/
theorem history_notation_invariant (s : Session) (t : String) (h : HistOk s) :
    HistOk (make_move s t).1 ∧ HistOk (undoOp s) ∧ HistOk (redo_move s) := by
  simp only [HistOk] at h ⊢
  refine ⟨?_, ?_, ?_⟩
  · rcases make_move_cases s t with he | ⟨m, _, _, hc⟩
    · rwa [he]
    · rw [hc]
      simp only [commitMove, pushBoard, List.map_cons]
      rw [h]
  · cases hs : s.board.stack with
    | nil => simpa [undoOp, undo_move, hs] using h
    | cons e rest =>
        obtain ⟨m, p⟩ := e
        rw [hs] at h
        simp only [List.map_cons] at h
        simp [undoOp, undo_move, hs, h]
  · cases hr : s.redo_stack with
    | nil => simpa [redo_move, hr] using h
    | cons m rest =>
        simp only [redo_move, hr, pushBoard, List.map_cons]
        rw [h]

/-- Witness for C10 at a concrete input: the invariant holds initially and is
carried through a concrete commit. -/
theorem history_notation_invariant_witness :
    HistOk initialSession ∧ HistOk (make_move initialSession "e4").1 :=
  ⟨rfl, (history_notation_invariant initialSession "e4" rfl).1⟩

/-! ## Undo/redo round trip (C1) -/

theorem commit_sessionCoh (s : Session) (m : Move) (h : SessionCoh s) :
    SessionCoh (commitMove s m) := by
  obtain ⟨hh, hc⟩ := h
  constructor
  · simp only [HistOk, commitMove, pushBoard, List.map_cons]
    rw [hh]
  · simp only [commitMove, pushBoard, StackCoh]
    exact ⟨trivial, hc⟩

theorem undo_sessionCoh (s : Session) (h : SessionCoh s) : SessionCoh (undoOp s) := by
  obtain ⟨hh, hc⟩ := h
  cases hs : s.board.stack with
  | nil =>
      have he : undoOp s = s := by simp [undoOp, undo_move, hs]
      rw [he]
      exact ⟨hh, hc⟩
  | cons e rest =>
      obtain ⟨m, p⟩ := e
      rw [hs] at hc
      simp only [StackCoh] at hc
      simp only [HistOk] at hh
      rw [hs] at hh
      simp only [List.map_cons] at hh
      constructor
      · simp only [HistOk, undoOp, undo_move, hs, hh]
        simp
      · simp only [undoOp, undo_move, hs]
        exact hc.2

theorem redo_undo_cancel (s : Session) (h : SessionCoh s) (hne : s.board.stack ≠ []) :
    redo_move (undoOp s) = s := by
  obtain ⟨hh, hc⟩ := h
  cases hs : s.board.stack with
  | nil => exact absurd hs hne
  | cons e rest =>
      obtain ⟨m, p⟩ := e
      rw [hs] at hc
      simp only [StackCoh] at hc
      obtain ⟨hpos, _⟩ := hc
      simp only [HistOk] at hh
      rw [hs] at hh
      simp only [List.map_cons] at hh
      cases s with
  | mk b mh rs sv =>
      cases b with
  | mk pos stack =>
      simp only at hs hh hpos
      subst hs hh hpos
      simp [undoOp, undo_move, redo_move, pushBoard]

theorem iterOp_succ_outer (f : Session → Session) (n : Nat) (s : Session) :
    iterOp f (n + 1) s = f (iterOp f n s) := by
  induction n generalizing s with
  | zero => rfl
  | succ k ih =>
      calc iterOp f (k + 1 + 1) s = iterOp f (k + 1) (f s) := rfl
        _ = f (iterOp f k (f s)) := ih (f s)
        _ = f (iterOp f (k + 1) s) := rfl

theorem undoN_redoN_cancel (n : Nat) (s : Session) (h : SessionCoh s)
    (hn : n ≤ s.board.stack.length) :
    iterOp redo_move n (iterOp undoOp n s) = s := by
  induction n generalizing s with
  | zero => rfl
  | succ k ih =>
      have hne : s.board.stack ≠ [] := by
        intro he
        rw [he] at hn
        simp at hn
      have hcoh' : SessionCoh (undoOp s) := undo_sessionCoh s h
      have hlen : k ≤ (undoOp s).board.stack.length := by
        cases hs : s.board.stack with
        | nil => exact absurd hs hne
        | cons e rest =>
            obtain ⟨m, p⟩ := e
            have hrest : (undoOp s).board.stack = rest := by
              simp [undoOp, undo_move, hs]
            rw [hrest]
            rw [hs] at hn
            simpa using Nat.le_of_succ_le_succ hn
      calc iterOp redo_move (k + 1) (iterOp undoOp (k + 1) s)
          = iterOp redo_move (k + 1) (iterOp undoOp k (undoOp s)) := rfl
        _ = redo_move (iterOp redo_move k (iterOp undoOp k (undoOp s))) :=
            iterOp_succ_outer redo_move k _
        _ = redo_move (undoOp s) := by rw [ih (undoOp s) hcoh' hlen]
        _ = s := redo_undo_cancel s h hne

theorem foldl_commit_coh (ms : List Move) (s : Session) (h : SessionCoh s) :
    SessionCoh (ms.foldl commitMove s) := by
  induction ms generalizing s with
  | nil => exact h
  | cons m ms ih => exact ih (commitMove s m) (commit_sessionCoh s m h)

theorem playScript_coh (ms : List Move) : SessionCoh (playScript ms) :=
  foldl_commit_coh ms initialSession ⟨rfl, trivial⟩

theorem foldl_commit_stack_length (ms : List Move) (s : Session) :
    (ms.foldl commitMove s).board.stack.length = s.board.stack.length + ms.length := by
  induction ms generalizing s with
  | nil => simp
  | cons m ms ih =>
      have hlen : (commitMove s m).board.stack.length = s.board.stack.length + 1 := by
        simp [commitMove, pushBoard]
      rw [List.foldl_cons, ih (commitMove s m), hlen, List.length_cons]
      omega

/-- C1: for every sequence of legal moves committed from the initial position,
undoing N times (N at most the number of applied moves) and then redoing N times
restores the session exactly — the full `Session` equality covers piece
placement, castling rights, en-passant target, clocks, side to move, the
move stack and the move-history list. -/
theorem undo_redo_roundtrip (ms : List Move) (n : Nat)
    (_hleg : LegalFrom initialSession ms = true) (hn : n ≤ ms.length) :
    iterOp redo_move n (iterOp undoOp n (playScript ms)) = playScript ms := by
  apply undoN_redoN_cancel n (playScript ms) (playScript_coh ms)
  rw [playScript, foldl_commit_stack_length]
  have h0 : initialSession.board.stack.length = 0 := rfl
  rw [h0]
  simpa using hn

/-- Witness for C1 at a concrete input: the one-move script `1.e4`, undone once
and redone once. -/
theorem undo_redo_roundtrip_witness :
    LegalFrom initialSession [⟨12, 28, none⟩] = true ∧
      1 ≤ ([(⟨12, 28, none⟩ : Move)] : List Move).length ∧
      iterOp redo_move 1 (iterOp undoOp 1 (playScript [⟨12, 28, none⟩])) =
        playScript [⟨12, 28, none⟩] :=
  ⟨by decide, by decide, undo_redo_roundtrip [⟨12, 28, none⟩] 1 (by decide) (by decide)⟩

/-! ## Reachable-state legality of the redo stack (C6) -/

theorem commit_reachInv (s : Session) (m : Move) (hm : m ∈ legalMoves s.board.pos)
    (h : ReachInv s) : ReachInv (commitMove s m) := by
  obtain ⟨hst, _⟩ := h
  constructor
  · simp only [commitMove, pushBoard, LegalStackCoh]
    exact ⟨trivial, hm, hst⟩
  · simp [commitMove, LegalLine]

theorem undo_reachInv (s : Session) (h : ReachInv s) : ReachInv (undoOp s) := by
  obtain ⟨hst, hrl⟩ := h
  cases hs : s.board.stack with
  | nil =>
      rw [show undoOp s = s from by simp [undoOp, undo_move, hs]]
      exact ⟨hst, hrl⟩
  | cons e rest =>
      obtain ⟨m, p⟩ := e
      rw [hs] at hst
      simp only [LegalStackCoh] at hst
      obtain ⟨hpos, hm, hrest⟩ := hst
      constructor
      · simp only [undoOp, undo_move, hs]
        exact hrest
      · simp only [undoOp, undo_move, hs, LegalLine]
        refine ⟨hm, ?_⟩
        rw [← hpos]
        exact hrl

theorem redo_reachInv (s : Session) (h : ReachInv s) : ReachInv (redo_move s) := by
  obtain ⟨hst, hrl⟩ := h
  cases hr : s.redo_stack with
  | nil =>
      rw [redo_move_of_empty s hr]
      exact ⟨hst, hrl⟩
  | cons m rest =>
      rw [hr] at hrl
      simp only [LegalLine] at hrl
      obtain ⟨hm, hrest⟩ := hrl
      constructor
      · simp only [redo_move, hr, pushBoard, LegalStackCoh]
        exact ⟨trivial, hm, hst⟩
      · simp only [redo_move, hr, pushBoard]
        exact hrest

theorem reachable_reachInv (s : Session) (h : Reachable s) : ReachInv s := by
  induction h with
  | init => exact ⟨trivial, trivial⟩
  | mv s t _ ih =>
      rcases make_move_cases s t with he | ⟨m, _, hm, hc⟩
      · rwa [he]
      · rw [hc]
        exact commit_reachInv s m hm ih
  | und s _ ih => exact undo_reachInv s ih
  | red s _ ih => exact redo_reachInv s ih
  | best s eng sug _ ih =>
      cases eng with
      | false => simpa [play_best] using ih
      | true =>
          rcases make_move_cases s (sanStr s.board.pos sug) with he | ⟨m, _, hm, hc⟩
          · rw [show play_best true s sug = s from by simpa [play_best] using he]
            exact ih
          · rw [show play_best true s sug = commitMove s m from by simpa [play_best] using hc]
            exact commit_reachInv s m hm ih

/-- C6 (amended): `redo_move` re-applies the popped move with *no* legality
re-validation (see the counterexample); nevertheless, in every session state
reachable through the program's operations, the move at the head of a non-empty
redo stack is legal in the current position, because the only way moves enter
the redo stack is `undo_move` and every new commit clears it. -/
theorem redo_head_legal_of_reachable (s : Session) (h : Reachable s)
    (m : Move) (rest : List Move) (hr : s.redo_stack = m :: rest) :
    m ∈ legalMoves s.board.pos := by
  obtain ⟨_, hrl⟩ := reachable_reachInv s h
  rw [hr] at hrl
  simp only [LegalLine] at hrl
  exact hrl.1

/-- Counterexample for C6 as stated: on a session whose redo stack holds the
illegal move a1-a3 (the rook jumping over its own pawn in the initial position),
`redo_move` applies it anyway — no re-validation of legality takes place. -/
theorem redo_no_revalidation_cex :
    ¬((⟨0, 16, none⟩ : Move) ∈ legalMoves initialPosition) ∧
      redo_move ⟨⟨initialPosition, []⟩, [], [⟨0, 16, none⟩], none⟩ ≠
        ⟨⟨initialPosition, []⟩, [], [⟨0, 16, none⟩], none⟩ ∧
      (redo_move ⟨⟨initialPosition, []⟩, [], [⟨0, 16, none⟩], none⟩).board.stack.map Prod.fst =
        [⟨0, 16, none⟩] := by decide

/-- Witness for C6's amended theorem at a concrete reachable state: after
committing `e4` and undoing it, the redo stack holds e2-e4, which is legal in
the restored initial position. -/
theorem redo_head_legal_witness :
    (undoOp (make_move initialSession "e4").1).redo_stack = [⟨12, 28, none⟩] ∧
      (⟨12, 28, none⟩ : Move) ∈
        legalMoves (undoOp (make_move initialSession "e4").1).board.pos :=
  ⟨by decide,
    redo_head_legal_of_reachable (undoOp (make_move initialSession "e4").1)
      (Reachable.und _ (Reachable.mv _ "e4" Reachable.init))
      ⟨12, 28, none⟩ [] (by decide)⟩

/-! ## History appending and transcript writing (C8) -/

/-- The session after `1.e4 e5`, two undos and one redo (the concrete run of
the transcript-staleness counterexample). -/
def redoAfterTwoUndos : Session :=
  redo_move (undoOp (undoOp (make_move (make_move initialSession "e4").1 "e5").1))

/-- C8 (amended): every successful application appends the move's notation to
the history, but only the `make_move` commit branch invokes the transcript
writer (serializing the full applied-move sequence); a `redo_move`
re-application appends to the history yet leaves the saved transcript exactly
as it was — `save_pgn` is not called there. -/
theorem apply_history_transcript (s : Session) (t : String) :
    ((make_move s t).2 = .applied →
      ∃ m, m ∈ legalMoves s.board.pos ∧
        (make_move s t).1.move_history = sanStr s.board.pos m :: s.move_history ∧
        (make_move s t).1.saved = some (appliedSeq (make_move s t).1.board)) ∧
    (∀ m rest, s.redo_stack = m :: rest →
      (redo_move s).move_history = sanStr s.board.pos m :: s.move_history ∧
      (redo_move s).saved = s.saved) := by
  constructor
  · intro h
    obtain ⟨m, _, hm, hc⟩ := make_move_applied_commit s t h
    have h1 : (make_move s t).1 = commitMove s m := by rw [hc]
    refine ⟨m, hm, ?_, ?_⟩ <;> rw [h1] <;> rfl
  · intro m rest hr
    constructor <;> simp [redo_move, hr]

/-- Witness for C8's amended theorem at a concrete input: committing `e4` from
the initial state appends its notation and writes the one-move transcript. -/
theorem apply_history_transcript_witness :
    (make_move initialSession "e4").2 = .applied ∧
      ∃ m, m ∈ legalMoves initialSession.board.pos ∧
        (make_move initialSession "e4").1.move_history =
          sanStr initialSession.board.pos m :: initialSession.move_history ∧
        (make_move initialSession "e4").1.saved =
          some (appliedSeq (make_move initialSession "e4").1.board) :=
  ⟨by decide, (apply_history_transcript initialSession "e4").1 (by decide)⟩

/-- Counterexample for C8 as stated: after `1.e4 e5`, two undos and one redo,
the redo has successfully re-applied e2-e4 (the applied sequence is one move),
but the transcript still holds the two-move serialization written by the last
commit — the transcript writer was not invoked for the re-applied move. -/
theorem redo_transcript_stale_cex :
    appliedSeq redoAfterTwoUndos.board = [⟨12, 28, none⟩] ∧
      redoAfterTwoUndos.saved = some [⟨12, 28, none⟩, ⟨52, 36, none⟩] ∧
      redoAfterTwoUndos.saved ≠ some (appliedSeq redoAfterTwoUndos.board) := by
  decide

/-! ## Coordinate/algebraic resolution order (C2) -/

theorem sanParse_some (pos : Position) (t : String) (m : Move)
    (h : sanParse pos t = some m) : m ∈ legalMoves pos ∧ sanStr pos m = t := by
  unfold sanParse at h
  cases hf : (legalMoves pos).filter (fun m => sanStr pos m == t) with
  | nil =>
      rw [hf] at h
      simp at h
  | cons a l =>
      cases l with
      | nil =>
          rw [hf] at h
          simp at h
          subst h
          have ha : a ∈ (legalMoves pos).filter (fun m => sanStr pos m == t) := by
            rw [hf]
            exact List.mem_singleton_self a
          rw [List.mem_filter] at ha
          exact ⟨ha.1, by simpa using ha.2⟩
      | cons b l2 =>
          rw [hf] at h
          simp at h

theorem fromUciChars_none_of_length (l : List Char) (h : l.length ≠ 4) :
    fromUciChars l = none := by
  match l, h with
  | [], _ => rfl
  | [a], _ => rfl
  | [a, b], _ => rfl
  | [a, b, c], _ => rfl
  | [a, b, c, d], h => exact absurd rfl h
  | a :: b :: c :: d :: e :: rest, _ => rfl

theorem fromUciChars_none_of_head (c : Char) (l : List Char)
    (h0 : c ≠ '0') (hf : isFileChar c = false) : fromUciChars (c :: l) = none := by
  match l with
  | [] => rfl
  | [b] => rfl
  | [b, c2] => rfl
  | [b, c2, d] => simp [fromUciChars, hf, h0]
  | b :: c2 :: d :: e :: rest => rfl

theorem fromUciChars_none_of_second (a c : Char) (l : List Char)
    (h0 : c ≠ '0') (hr : isRankChar c = false) : fromUciChars (a :: c :: l) = none := by
  match l with
  | [] => rfl
  | [b] => rfl
  | [b, d] => simp [fromUciChars, hr, h0]
  | b :: d :: e :: rest => rfl

theorem fromUciChars_none_of_third (a b c : Char) (l : List Char)
    (h0 : c ≠ '0') (hf : isFileChar c = false) : fromUciChars (a :: b :: c :: l) = none := by
  match l with
  | [] => rfl
  | [d] => simp [fromUciChars, hf, h0]
  | d :: e :: rest => rfl

theorem fromUciChars_some_shape (l : List Char) (m : Move)
    (h : fromUciChars l = some m) :
    ∃ a b c d, l = [a, b, c, d] ∧
      ((a = '0' ∧ b = '0' ∧ c = '0' ∧ d = '0') ∨
        (isFileChar a = true ∧ isRankChar b = true ∧
          isFileChar c = true ∧ isRankChar d = true)) := by
  match l with
  | [] => exact absurd h (by simp [fromUciChars])
  | [a] => exact absurd h (by simp [fromUciChars])
  | [a, b] => exact absurd h (by simp [fromUciChars])
  | [a, b, c] => exact absurd h (by simp [fromUciChars])
  | a :: b :: c :: d :: e :: rest => exact absurd h (by simp [fromUciChars])
  | [a, b, c, d] =>
      refine ⟨a, b, c, d, rfl, ?_⟩
      simp only [fromUciChars] at h
      by_cases h1 : (a == '0' && b == '0' && c == '0' && d == '0') = true
      · simp only [Bool.and_eq_true, beq_iff_eq] at h1
        exact Or.inl ⟨h1.1.1.1, h1.1.1.2, h1.1.2, h1.2⟩
      · rw [if_neg h1] at h
        by_cases h2 : (isFileChar a && isRankChar b && isFileChar c && isRankChar d) = true
        · simp only [Bool.and_eq_true] at h2
          exact Or.inr ⟨h2.1.1.1, h2.1.1.2, h2.1.2, h2.2⟩
        · rw [if_neg h2] at h
          exact absurd h (by simp)

theorem sanSuffixChars_cases (pos : Position) :
    sanSuffixChars pos = [] ∨ sanSuffixChars pos = ['+'] ∨ sanSuffixChars pos = ['#'] := by
  unfold sanSuffixChars
  split
  · split
    · exact Or.inr (Or.inr rfl)
    · exact Or.inr (Or.inl rfl)
  · exact Or.inl rfl

theorem pieceChar_head_facts (pt : PieceType) :
    pieceChar pt ≠ '0' ∧ isFileChar (pieceChar pt) = false := by
  cases pt <;> exact ⟨by decide, by decide⟩

theorem fileChar_not_zero (f : Nat) (h : f < 8) : fileChar f ≠ '0' := by
  interval_cases f <;> decide

/-- No standard-algebraic rendering is accepted by the coordinate (UCI) parser:
SAN bodies start with a piece letter or `O`, pawn captures carry an `x` in
second place, promotions an `=` in third place, and plain pawn pushes are at
most three characters long. -/
theorem fromUciChars_sanChars (pos : Position) (m : Move) :
    fromUciChars (sanChars pos m) = none := by
  simp only [sanChars]
  split
  · decide
  · split
    · decide
    · next pc _ =>
        split
        · -- castling body: O-O or O-O-O
          split <;>
            · simp only [List.cons_append, List.nil_append]
              exact fromUciChars_none_of_head 'O' _ (by decide) (by decide)
        · split
          · -- pawn body
            split
            · -- pawn capture: second character is x
              simp only [List.cons_append, List.nil_append, List.append_assoc]
              exact fromUciChars_none_of_second _ 'x' _ (by decide) (by decide)
            · -- plain pawn push
              split
              · -- promotion: third character is =
                simp only [List.cons_append, List.nil_append, List.append_assoc]
                exact fromUciChars_none_of_third _ _ '=' _ (by decide) (by decide)
              · -- no promotion: two or three characters
                simp only [List.cons_append, List.nil_append, List.append_nil,
                  List.append_assoc]
                rcases sanSuffixChars_cases (applyMove pos m) with hs | hs | hs <;>
                  rw [hs] <;> rfl
          · -- piece move: head is the piece letter
            simp only [List.cons_append, List.nil_append, List.append_assoc]
            exact fromUciChars_none_of_head (pieceChar pc.ptype) _
              (pieceChar_head_facts pc.ptype).1 (pieceChar_head_facts pc.ptype).2

theorem isFileChar_alnum (x : Char) (h : isFileChar x = true) : isAlnumCh x = true := by
  simp only [isFileChar, Bool.and_eq_true, decide_eq_true_eq] at h
  simp only [isAlnumCh, Bool.or_eq_true, Bool.and_eq_true, decide_eq_true_eq]
  exact Or.inl (Or.inr ⟨h.1, le_trans h.2 (by decide)⟩)

theorem isRankChar_alnum (x : Char) (h : isRankChar x = true) : isAlnumCh x = true := by
  simp only [isRankChar, Bool.and_eq_true, decide_eq_true_eq] at h
  simp only [isAlnumCh, Bool.or_eq_true, Bool.and_eq_true, decide_eq_true_eq]
  exact Or.inr ⟨le_trans (by decide) h.1, le_trans h.2 (by decide)⟩

theorem fromUci_some_alnum (t : String) (m : Move) (h : fromUci t = some m) :
    t.length = 4 ∧ t.data.all isAlnumCh = true := by
  unfold fromUci at h
  obtain ⟨a, b, c, d, hl, hcase⟩ := fromUciChars_some_shape t.data m h
  have hlen : t.length = 4 := by
    show t.data.length = 4
    rw [hl]
    rfl
  refine ⟨hlen, ?_⟩
  rw [hl]
  rcases hcase with ⟨h1, h2, h3, h4⟩ | ⟨h1, h2, h3, h4⟩
  · subst h1 h2 h3 h4
    decide
  · simp [List.all_cons, isFileChar_alnum a h1, isRankChar_alnum b h2,
      isFileChar_alnum c h3, isRankChar_alnum d h4]

/-- C2: the source's resolution (`parse_san` first, then — only when that fails
and the token has length exactly 4 — `from_uci`) is extensionally the claimed
rule "coordinate form in preference to algebraic for 4-letter/digit tokens,
algebraic only otherwise": a standard-algebraic rendering is never
coordinate-shaped and a coordinate token is never a rendering, so the two
precedence orders resolve every token to the same result. -/
theorem coordinate_precedence (pos : Position) (t : String) :
    resolveMove pos t = resolveMoveCoordinateFirst pos t := by
  cases hs : sanParse pos t with
  | some m =>
      obtain ⟨_, hsan⟩ := sanParse_some pos t m hs
      have hu : fromUci t = none := by
        rw [← hsan]
        show fromUciChars (sanChars pos m) = none
        exact fromUciChars_sanChars pos m
      simp [resolveMove, resolveMoveCoordinateFirst, hs, hu]
  | none =>
      have hL : resolveMove pos t = if t.length = 4 then fromUci t else none := by
        simp [resolveMove, hs]
      rw [hL]
      unfold resolveMoveCoordinateFirst
      by_cases h4 : t.length = 4
      · by_cases hal : t.data.all isAlnumCh = true
        · rw [if_pos h4, if_pos ⟨h4, hal⟩]
          cases hu : fromUci t with
          | some m' => simp [hu]
          | none => simp [hu, hs]
        · rw [if_pos h4, if_neg (fun hc => hal hc.2)]
          cases hu : fromUci t with
          | none => rw [hs]
          | some m' => exact absurd (fromUci_some_alnum t m' hu).2 hal
      · rw [if_neg h4, if_neg (fun hc => h4 hc.1), hs]

end VoiceChess
